import Mathlib

/-!
Shallow embedding of the Connect-Four server core (`src/game/Game.ts`,
`src/game/Bot.ts`, `src/game/GameManager.ts`).

The board is a 6-row × 7-column grid stored, as in the source, as a list of
rows; row 0 is the top row.  A cell holds `none` (TypeScript `null`) or
`some color`.  TypeScript numbers used as board coordinates are embedded as
`Int` where the source can see negative values (direction deltas, the public
`column` argument) and as `Nat` where the source guarantees naturals.
Side-effecting calls of `GameManager` (WebSocket sends, Kafka publishes,
database writes, scheduled timers) are embedded as an explicit list of
emitted `Effect` values.
-/

namespace C4

inductive PlayerColor where
  | red
  | yellow
deriving DecidableEq, Repr

/-- The turn flip of the source: red maps to yellow, yellow to red. -/
def PlayerColor.other : PlayerColor → PlayerColor
  | .red => .yellow
  | .yellow => .red

/-- Values of the `winner` field once set: a color or the draw marker. -/
inductive GameResult where
  | red
  | yellow
  | draw
deriving DecidableEq, Repr

def PlayerColor.toResult : PlayerColor → GameResult
  | .red => .red
  | .yellow => .yellow

abbrev Cell := Option PlayerColor

abbrev Board := List (List Cell)

/-- Row `r` of the board (`this.board[r]`); out-of-range gives `[]`. -/
def rowAt : Board → Nat → List Cell
  | [], _ => []
  | row :: _, 0 => row
  | _ :: rest, r + 1 => rowAt rest r

/-- Entry `c` of a row; out-of-range gives `none`. -/
def entryAt : List Cell → Nat → Cell
  | [], _ => none
  | x :: _, 0 => x
  | _ :: xs, c + 1 => entryAt xs c

/-- Cell read `this.board[r][c]` for in-range naturals. -/
def cellAt (b : Board) (r c : Nat) : Cell :=
  entryAt (rowAt b r) c

def setEntry : List Cell → Nat → Cell → List Cell
  | [], _, _ => []
  | _ :: xs, 0, v => v :: xs
  | x :: xs, c + 1, v => x :: setEntry xs c v

/-- Cell write `this.board[r][c] = v` (functional update). -/
def setCell : Board → Nat → Nat → Cell → Board
  | [], _, _, _ => []
  | row :: rest, 0, c, v => setEntry row c v :: rest
  | row :: rest, r + 1, c, v => row :: setCell rest r c v

/-- The fixed 6×7 shape every live board has. -/
def Board.WF (b : Board) : Prop :=
  b.length = 6 ∧ ∀ row ∈ b, row.length = 7

instance : DecidablePred Board.WF := fun b => by
  unfold Board.WF; infer_instance

/-- The bounds-and-color test of the `while` guard in `countInDirection`:
`r >= 0 && r < ROWS && c >= 0 && c < COLS && board[r][c] === color`. -/
def cellIs (b : Board) (color : PlayerColor) (r c : Int) : Bool :=
  decide (0 ≤ r) && decide (r < 6) && decide (0 ≤ c) && decide (c < 7) &&
    decide (cellAt b r.toNat c.toNat = some color)

/-- The `while` loop body of `countInDirection` (shared verbatim between
`Game` and `Bot` in the source).  `fuel` bounds the iteration count; for the
unit-vector directions the source uses, the guard fails after at most 7
steps, so fuel 8 makes this equal to the unbounded loop. -/
def countDirAux (b : Board) (color : PlayerColor) (dr dc : Int) :
    Nat → Int → Int → Nat
  | 0, _, _ => 0
  | fuel + 1, r, c =>
    if cellIs b color r c then
      countDirAux b color dr dc fuel (r + dr) (c + dc) + 1
    else 0

/-- Embeds `countInDirection(row, col, color, rowDir, colDir)`: counts
consecutive same-color discs strictly beyond the placed cell. -/
def countInDirection (b : Board) (row col : Nat) (color : PlayerColor)
    (dr dc : Int) : Nat :=
  countDirAux b color dr dc 8 ((row : Int) + dr) ((col : Int) + dc)

/-- Embeds `checkDirection`: the placed disc plus both outward counts
reach 4. -/
def checkDirection (b : Board) (row col : Nat) (color : PlayerColor)
    (dr dc : Int) : Bool :=
  decide (4 ≤ 1 + countInDirection b row col color dr dc
      + countInDirection b row col color (-dr) (-dc))

/-- Embeds `Game.checkWin(row, col, color)`; the leading guard mirrors the
source check `if (this.board[row][col] !== color) return false`. -/
def checkWin (b : Board) (row col : Nat) (color : PlayerColor) : Bool :=
  if cellAt b row col = some color then
    checkDirection b row col color 0 1 || checkDirection b row col color 1 0 ||
      checkDirection b row col color 1 1 ||
      checkDirection b row col color 1 (-1)
  else false

/-- Full-top-row test `this.board[0].every(cell => cell !== null)`. -/
def isBoardFull (b : Board) : Bool :=
  (rowAt b 0).all fun cell => cell.isSome

/-- The descending row scan `for (let r = ROWS-1; r >= 0; r--)` looking for
the first empty cell, entered at row `r`. -/
def lowestEmptyFrom (b : Board) (col : Nat) : Nat → Option Nat
  | 0 => if cellAt b 0 col = none then some 0 else none
  | r + 1 =>
    if cellAt b (r + 1) col = none then some (r + 1)
    else lowestEmptyFrom b col r

/-- Embeds `Bot.getLowestRow` and the row-finding loop of `Game.makeMove`
(the sentinel -1 becomes `none`). -/
def getLowestRow (b : Board) (col : Nat) : Option Nat :=
  lowestEmptyFrom b col 5

structure Game where
  board : Board
  currentPlayer : PlayerColor
  winner : Option GameResult
  moveCount : Nat
deriving DecidableEq, Repr

/-- Embeds `Game.makeMove(column, color)`: the updated session state and
the returned boolean. -/
def Game.makeMove (g : Game) (column : Int) (color : PlayerColor) :
    Game × Bool :=
  if g.winner ≠ none then (g, false)
  else if color ≠ g.currentPlayer then (g, false)
  else if column < 0 ∨ 7 ≤ column then (g, false)
  else if cellAt g.board 0 column.toNat ≠ none then (g, false)
  else
    match getLowestRow g.board column.toNat with
    | none => (g, false)
    | some row =>
      let b := setCell g.board row column.toNat (some color)
      if checkWin b row column.toNat color then
        ({ g with board := b, moveCount := g.moveCount + 1,
                  winner := some color.toResult }, true)
      else if isBoardFull b then
        ({ g with board := b, moveCount := g.moveCount + 1,
                  winner := some GameResult.draw }, true)
      else
        ({ g with board := b, moveCount := g.moveCount + 1,
                  currentPlayer := color.other }, true)

/-- Embeds `Game.isValidMove(column)`. -/
def isValidMove (b : Board) (column : Int) : Bool :=
  if column < 0 ∨ 7 ≤ column then false
  else decide (cellAt b 0 column.toNat = none)

/-- Embeds `Game.wouldWin(column, color)`: the source temporarily places
the disc
on the live board, evaluates the four directions, then restores the cell to
`null`; the embedding returns the post-call state together with the result. -/
def Game.wouldWinMut (g : Game) (column : Int) (color : PlayerColor) :
    Game × Bool :=
  if ¬ isValidMove g.board column then (g, false)
  else
    match getLowestRow g.board column.toNat with
    | none => (g, false)
    | some row =>
      let b1 := setCell g.board row column.toNat (some color)
      let win := checkDirection b1 row column.toNat color 0 1 ||
        checkDirection b1 row column.toNat color 1 0 ||
        checkDirection b1 row column.toNat color 1 1 ||
        checkDirection b1 row column.toNat color 1 (-1)
      let b2 := setCell b1 row column.toNat none
      ({ g with board := b2 }, win)

/-! ## Opponent heuristic (`src/game/Bot.ts`)

The private `countInDirection` of `Bot` duplicates the one of `Game`
verbatim (same `ROWS`/`COLS` constants), so the embedding shares
`countInDirection`. -/

/-- The direction table `[[0,1],[1,0],[1,1],[1,-1]]`. -/
def axes : List (Int × Int) := [(0, 1), (1, 0), (1, 1), (1, -1)]

/-- Embeds `Bot.countConsecutive`: both outward counts plus the cell
itself. -/
def countConsecutive (b : Board) (row col : Nat) (color : PlayerColor)
    (dr dc : Int) : Nat :=
  1 + countInDirection b row col color dr dc
    + countInDirection b row col color (-dr) (-dc)

/-- Embeds `Bot.checkWin`: some axis reaches `WIN_LENGTH`. -/
def botCheckWin (b : Board) (row col : Nat) (color : PlayerColor) : Bool :=
  axes.any fun d => decide (4 ≤ countConsecutive b row col color d.1 d.2)

/-- Embeds `Bot.wouldWin(board, column, color)`: drops a disc on a copy
and checks. -/
def botWouldWin (b : Board) (col : Nat) (color : PlayerColor) : Bool :=
  match getLowestRow b col with
  | none => false
  | some row => botCheckWin (setCell b row col (some color)) row col color

/-- Embeds `Bot.countThreats`: axes whose consecutive count reaches 3. -/
def countThreats (b : Board) (row col : Nat) (color : PlayerColor) : Nat :=
  axes.countP fun d => decide (3 ≤ countConsecutive b row col color d.1 d.2)

/-- Embeds `Bot.evaluateMove(board, column)`; here `⊥` stands for the
`-Infinity` returned when the column is full. -/
def evaluateMove (b : Board) (bot : PlayerColor) (column : Nat) :
    WithBot Int :=
  match getLowestRow b column with
  | none => ⊥
  | some row =>
    let b1 := setCell b row column (some bot)
    let b2 := setCell b1 row column (some bot.other)
    (((3 - |(column : Int) - 3|) * 10
      + (countThreats b1 row column bot : Int) * 50
      + (countThreats b2 row column bot.other : Int) * 30 : Int) : WithBot Int)

/-- Embeds `Bot.getValidMoves` / `Game.getValidMoves`: columns 0..6 whose
top cell is empty, in natural order. -/
def getValidMovesB (b : Board) : List Nat :=
  (List.range 7).filter fun c => decide (cellAt b 0 c = none)

/-- The scoring loop of `Bot.getBestMove`: running `(bestMove, bestScore)`
pair, updated only on strictly greater score. -/
def pickBest (b : Board) (bot : PlayerColor) :
    List Nat → Nat × WithBot Int → Nat × WithBot Int
  | [], acc => acc
  | c :: rest, (bm, bs) =>
    let s := evaluateMove b bot c
    if bs < s then pickBest b bot rest (c, s) else pickBest b bot rest (bm, bs)

/-- Embeds `Bot.getBestMove(board)`; the value -1 is the no-move
sentinel. -/
def getBestMove (b : Board) (bot : PlayerColor) : Int :=
  let vm := getValidMovesB b
  if vm.length = 0 then -1
  else if vm.length = 1 then (vm.headD 0 : Int)
  else
    match vm.find? (fun c => botWouldWin b c bot) with
    | some c => (c : Int)
    | none =>
      match vm.find? (fun c => botWouldWin b c bot.other) with
      | some c => (c : Int)
      | none => ((pickBest b bot vm (vm.headD 0, ⊥)).1 : Int)

/-! ## Session registry (`src/game/GameManager.ts`)

Outbound WebSocket messages, Kafka publishes, database writes and scheduled
timer tasks are embedded as `Effect` values collected in emission order. -/

structure MPlayer where
  username : String
  color : PlayerColor
  isBot : Bool
deriving DecidableEq, Repr

structure Session where
  id : String
  players : MPlayer × MPlayer
  game : Game
deriving DecidableEq, Repr

inductive Effect where
  /-- the `move` message `#broadcastGameState` sends to a human seat -/
  | moveMsg (username : String) (winner : Option GameResult)
  /-- the publish call `kafkaProducer.sendGameEnd(...)` -/
  | publishEnded (gameId : String) (moveCount : Nat)
  /-- the persistence call `db.saveGame(...)` -/
  | saveGame (gameId : String) (moveCount : Nat)
  /-- the delayed cleanup `setTimeout(() => this.#cleanupGame(game.id), 5000)` -/
  | scheduleCleanup (gameId : String)
  /-- the scheduled reply `setTimeout(() => this.#makeBotMove(gameId), 300)` -/
  | scheduleBotMove (gameId : String)
  /-- the `opponentLeft` message of `#handleForfeit` -/
  | opponentLeft (username : String) (winner : PlayerColor)
  /-- the immediate `#cleanupGame` call of `#handleForfeit` -/
  | cleanupNow (gameId : String)
deriving DecidableEq, Repr

/-- Embeds `game.players.find(p => p.username === username)` on the
two-seat pair. -/
def findPlayerByUsername (ps : MPlayer × MPlayer) (u : String) :
    Option MPlayer :=
  if ps.1.username = u then some ps.1
  else if ps.2.username = u then some ps.2
  else none

/-- Embeds `game.getPlayerByColor(color)` (the non-null assertion of the
source becomes `Option`). -/
def getPlayerByColor (ps : MPlayer × MPlayer) (c : PlayerColor) :
    Option MPlayer :=
  if ps.1.color = c then some ps.1
  else if ps.2.color = c then some ps.2
  else none

/-- Embeds `#broadcastGameState(game)`: a `move` message per human seat,
then — when
the game has ended — the Kafka publish, the database write and the delayed
cleanup, in source order.  (Winner name and wall-clock duration arguments are
not modelled.) -/
def broadcastEffects (s : Session) : List Effect :=
  (([s.players.1, s.players.2].filter fun p => !p.isBot).map fun p =>
      Effect.moveMsg p.username s.game.winner)
    ++ if s.game.winner ≠ none then
        [Effect.publishEnded s.id s.game.moveCount,
         Effect.saveGame s.id s.game.moveCount,
         Effect.scheduleCleanup s.id]
      else []

/-- Whether the seat now on turn is the scripted opponent
(`game.getPlayerByColor(game.currentPlayer).isBot`). -/
def botOnTurn (s : Session) : Bool :=
  ((getPlayerByColor s.players s.game.currentPlayer).map
    fun p => p.isBot).getD false

/-- Embeds `GameManager.makeMove(username, gameId, column)` specialised to the
looked-up session: resolve the seat by name, delegate to `Game.makeMove`,
broadcast on acceptance, and schedule the bot reply when the game goes on
and the seat on turn is the bot. -/
def sessionMakeMove (s : Session) (username : String) (column : Int) :
    Session × List Effect :=
  match findPlayerByUsername s.players username with
  | none => (s, [])
  | some p =>
    let r := s.game.makeMove column p.color
    if r.2 then
      let s' := { s with game := r.1 }
      (s', broadcastEffects s'
        ++ if s'.game.winner = none ∧ botOnTurn s' then
            [Effect.scheduleBotMove s.id]
          else [])
    else (s, [])

/-- Embeds `GameManager.#makeBotMove(gameId)` specialised to the looked-up
session. -/
def sessionBotMove (s : Session) : Session × List Effect :=
  if s.game.winner ≠ none then (s, [])
  else
    match getPlayerByColor s.players s.game.currentPlayer with
    | none => (s, [])
    | some bp =>
      if !bp.isBot then (s, [])
      else
        let column := getBestMove s.game.board bp.color
        let r := s.game.makeMove column bp.color
        if r.2 then
          let s' := { s with game := r.1 }
          (s', broadcastEffects s')
        else (s, [])

/-- Embeds `GameManager.#handleForfeit(gameId, username)`: notify the
remaining
human opponent (declared winner: the color of the opponent), then clean up the
registry immediately.  No persistence or completion publish happens here. -/
def forfeitEffects (s : Session) (username : String) : List Effect :=
  (match (if s.players.1.username ≠ username then some s.players.1
          else if s.players.2.username ≠ username then some s.players.2
          else none) with
    | some opp => if opp.isBot then [] else
        [Effect.opponentLeft opp.username opp.color]
    | none => [])
    ++ [Effect.cleanupNow s.id]

/-- One inbound event on a session: a human move request or the firing of a
scheduled bot-move task. -/
inductive Req where
  | human (username : String) (column : Int)
  | bot
deriving DecidableEq, Repr

def stepSession (s : Session) : Req → Session × List Effect
  | .human u col => sessionMakeMove s u col
  | .bot => sessionBotMove s

/-- Runs a sequence of inbound events on one session, collecting every
emitted effect in order. -/
def runSession (s : Session) : List Req → Session × List Effect
  | [] => (s, [])
  | r :: rest =>
    let p := stepSession s r
    let q := runSession p.1 rest
    (q.1, p.2 ++ q.2)

def Effect.isSave : Effect → Bool
  | .saveGame _ _ => true
  | _ => false

def Effect.isPublishEnd : Effect → Bool
  | .publishEnded _ _ => true
  | _ => false

/-! ## Board lemmas -/

theorem entryAt_setEntry_self :
    ∀ (l : List Cell) (c : Nat) (v : Cell), c < l.length →
      entryAt (setEntry l c v) c = v
  | [], c, _, h => absurd h (by simp)
  | _ :: _, 0, _, _ => rfl
  | _ :: xs, c + 1, v, h =>
    entryAt_setEntry_self xs c v (Nat.succ_lt_succ_iff.mp (by simpa using h))

theorem entryAt_setEntry_ne :
    ∀ (l : List Cell) (c : Nat) (v : Cell) (c' : Nat), c' ≠ c →
      entryAt (setEntry l c v) c' = entryAt l c'
  | [], _, _, _, _ => rfl
  | _ :: _, 0, _, 0, h => absurd rfl h
  | _ :: _, 0, _, _ + 1, _ => rfl
  | _ :: _, _ + 1, _, 0, _ => rfl
  | _ :: xs, c + 1, v, c' + 1, h =>
    entryAt_setEntry_ne xs c v c' (fun hc => h (by rw [hc]))

theorem setEntry_entryAt_self :
    ∀ (l : List Cell) (c : Nat), setEntry l c (entryAt l c) = l
  | [], _ => rfl
  | _ :: _, 0 => rfl
  | x :: xs, c + 1 => by
    show x :: setEntry xs c (entryAt xs c) = x :: xs
    rw [setEntry_entryAt_self]

theorem setEntry_setEntry :
    ∀ (l : List Cell) (c : Nat) (v w : Cell),
      setEntry (setEntry l c v) c w = setEntry l c w
  | [], _, _, _ => rfl
  | _ :: _, 0, _, _ => rfl
  | x :: xs, c + 1, v, w => by
    show x :: setEntry (setEntry xs c v) c w = x :: setEntry xs c w
    rw [setEntry_setEntry]

theorem length_setEntry :
    ∀ (l : List Cell) (c : Nat) (v : Cell), (setEntry l c v).length = l.length
  | [], _, _ => rfl
  | _ :: _, 0, _ => rfl
  | _ :: xs, c + 1, v => by
    show (setEntry xs c v).length + 1 = xs.length + 1
    rw [length_setEntry]

theorem rowAt_setCell_self :
    ∀ (b : Board) (r c : Nat) (v : Cell), r < b.length →
      rowAt (setCell b r c v) r = setEntry (rowAt b r) c v
  | [], r, _, _, h => absurd h (by simp)
  | _ :: _, 0, _, _, _ => rfl
  | _ :: rest, r + 1, c, v, h =>
    rowAt_setCell_self rest r c v (Nat.succ_lt_succ_iff.mp (by simpa using h))

theorem rowAt_setCell_ne :
    ∀ (b : Board) (r c : Nat) (v : Cell) (r' : Nat), r' ≠ r →
      rowAt (setCell b r c v) r' = rowAt b r'
  | [], _, _, _, _, _ => rfl
  | _ :: _, 0, _, _, 0, h => absurd rfl h
  | _ :: _, 0, _, _, _ + 1, _ => rfl
  | _ :: _, _ + 1, _, _, 0, _ => rfl
  | _ :: rest, r + 1, c, v, r' + 1, h =>
    rowAt_setCell_ne rest r c v r' (fun hr => h (by rw [hr]))

theorem setCell_out :
    ∀ (b : Board) (r c : Nat) (v : Cell), b.length ≤ r → setCell b r c v = b
  | [], _, _, _, _ => rfl
  | _ :: _, 0, _, _, h => absurd h (by simp)
  | row :: rest, r + 1, c, v, h => by
    show row :: setCell rest r c v = row :: rest
    rw [setCell_out rest r c v (Nat.succ_le_succ_iff.mp (by simpa using h))]

theorem cellAt_setCell_self (b : Board) (r c : Nat) (v : Cell)
    (hr : r < b.length) (hc : c < (rowAt b r).length) :
    cellAt (setCell b r c v) r c = v := by
  unfold cellAt
  rw [rowAt_setCell_self b r c v hr, entryAt_setEntry_self _ _ _ hc]

theorem cellAt_setCell_ne (b : Board) (r c : Nat) (v : Cell) (r' c' : Nat)
    (h : r' ≠ r ∨ c' ≠ c) :
    cellAt (setCell b r c v) r' c' = cellAt b r' c' := by
  unfold cellAt
  rcases eq_or_ne r' r with hr | hr
  · have hc : c' ≠ c := by
      rcases h with h | h
      · exact absurd hr h
      · exact h
    subst hr
    rcases Nat.lt_or_ge r' b.length with hlt | hge
    · rw [rowAt_setCell_self b r' c v hlt, entryAt_setEntry_ne _ _ _ _ hc]
    · rw [setCell_out b r' c v hge]
  · rw [rowAt_setCell_ne b r c v r' hr]

theorem setCell_setCell (b : Board) (r c : Nat) (v w : Cell) :
    setCell (setCell b r c v) r c w = setCell b r c w := by
  induction b generalizing r with
  | nil => rfl
  | cons row rest ih =>
    cases r with
    | zero => show setEntry (setEntry row c v) c w :: rest = _
              rw [setEntry_setEntry]; rfl
    | succ r => show row :: setCell (setCell rest r c v) r c w = _
                rw [ih]; rfl

theorem setCell_cellAt_self (b : Board) (r c : Nat) :
    setCell b r c (cellAt b r c) = b := by
  induction b generalizing r with
  | nil => rfl
  | cons row rest ih =>
    cases r with
    | zero => show setEntry row c (entryAt row c) :: rest = row :: rest
              rw [setEntry_entryAt_self]
    | succ r => show row :: setCell rest r c (cellAt rest r c) = row :: rest
                rw [ih]

/-- Un-placing a disc from a cell that was empty restores the board. -/
theorem setCell_none_of_none (b : Board) (r c : Nat)
    (h : cellAt b r c = none) : setCell b r c none = b := by
  have := setCell_cellAt_self b r c
  rwa [h] at this

/-! ## Lowest-empty-row lemmas -/

theorem lowestEmptyFrom_spec (b : Board) (col : Nat) :
    ∀ (r : Nat) (row : Nat), lowestEmptyFrom b col r = some row →
      cellAt b row col = none ∧ row ≤ r ∧
        ∀ r', row < r' → r' ≤ r → cellAt b r' col ≠ none := by
  intro r
  induction r with
  | zero =>
    intro row h
    unfold lowestEmptyFrom at h
    by_cases hc : cellAt b 0 col = none
    · simp only [hc, if_pos rfl] at h
      cases h
      exact ⟨hc, le_refl 0, fun r' h1 h2 => absurd (lt_of_lt_of_le h1 h2) (lt_irrefl _)⟩
    · simp [hc] at h
  | succ r ih =>
    intro row h
    unfold lowestEmptyFrom at h
    by_cases hc : cellAt b (r + 1) col = none
    · simp only [hc, if_pos rfl] at h
      cases h
      exact ⟨hc, le_refl _, fun r' h1 h2 => absurd h2 (not_le_of_lt h1)⟩
    · rw [if_neg hc] at h
      obtain ⟨h1, h2, h3⟩ := ih row h
      refine ⟨h1, le_trans h2 (Nat.le_succ r), fun r' hlt hle => ?_⟩
      rcases Nat.lt_or_ge r' (r + 1) with hr' | hr'
      · exact h3 r' hlt (Nat.lt_succ_iff.mp hr')
      · have : r' = r + 1 := le_antisymm hle hr'
        rw [this]; exact hc

theorem lowestEmptyFrom_none (b : Board) (col : Nat) :
    ∀ (r : Nat), lowestEmptyFrom b col r = none →
      ∀ r' ≤ r, cellAt b r' col ≠ none := by
  intro r
  induction r with
  | zero =>
    intro h r' hr'
    unfold lowestEmptyFrom at h
    by_cases hc : cellAt b 0 col = none
    · simp [hc] at h
    · rwa [Nat.le_zero.mp hr']
  | succ r ih =>
    intro h r' hr'
    unfold lowestEmptyFrom at h
    by_cases hc : cellAt b (r + 1) col = none
    · simp [hc] at h
    · rw [if_neg hc] at h
      rcases Nat.lt_or_ge r' (r + 1) with hlt | hge
      · exact ih h r' (Nat.lt_succ_iff.mp hlt)
      · have : r' = r + 1 := le_antisymm hr' hge
        rw [this]; exact hc

/-- A column with an empty top cell always has a landing row. -/
theorem getLowestRow_isSome_of_top_empty (b : Board) (col : Nat)
    (h : cellAt b 0 col = none) : ∃ row, getLowestRow b col = some row := by
  unfold getLowestRow
  cases hl : lowestEmptyFrom b col 5 with
  | none => exact absurd h (lowestEmptyFrom_none b col 5 hl 0 (by omega))
  | some row => exact ⟨row, rfl⟩

/-- What `getLowestRow` returns: the bottom-most empty row of the column. -/
theorem getLowestRow_spec (b : Board) (col row : Nat)
    (h : getLowestRow b col = some row) :
    cellAt b row col = none ∧ row ≤ 5 ∧
      ∀ r', row < r' → r' ≤ 5 → cellAt b r' col ≠ none :=
  lowestEmptyFrom_spec b col 5 row h

/-! ## `makeMove` case lemmas -/

theorem makeMove_cases (g : Game) (col : Int) (color : PlayerColor) :
    g.makeMove col color = (g, false) ∨ (g.makeMove col color).2 = true := by
  unfold Game.makeMove
  repeat' split
  all_goals try simp
  all_goals right
  all_goals split
  all_goals try rfl
  all_goals split <;> rfl

theorem makeMove_rejected (g : Game) (col : Int) (color : PlayerColor)
    (h : (g.makeMove col color).2 = false) : (g.makeMove col color).1 = g := by
  rcases makeMove_cases g col color with hc | hc
  · rw [hc]
  · rw [h] at hc; cases hc

theorem makeMove_accepted_eq (g : Game) (col : Int) (color : PlayerColor)
    (row : Nat) (h1 : g.winner = none) (h2 : color = g.currentPlayer)
    (h3 : 0 ≤ col) (h4 : col < 7)
    (h5 : cellAt g.board 0 col.toNat = none)
    (h6 : getLowestRow g.board col.toNat = some row) :
    g.makeMove col color =
      if checkWin (setCell g.board row col.toNat (some color)) row col.toNat
          color then
        ({ g with board := setCell g.board row col.toNat (some color),
                  moveCount := g.moveCount + 1,
                  winner := some color.toResult }, true)
      else if isBoardFull (setCell g.board row col.toNat (some color)) then
        ({ g with board := setCell g.board row col.toNat (some color),
                  moveCount := g.moveCount + 1,
                  winner := some GameResult.draw }, true)
      else
        ({ g with board := setCell g.board row col.toNat (some color),
                  moveCount := g.moveCount + 1,
                  currentPlayer := color.other }, true) := by
  unfold Game.makeMove
  rw [if_neg (by simp [h1]), if_neg (by simp [h2]), if_neg (by omega),
    if_neg (by simp [h5]), h6]

theorem makeMove_ok_iff (g : Game) (col : Int) (color : PlayerColor) :
    (g.makeMove col color).2 = true ↔
      g.winner = none ∧ color = g.currentPlayer ∧ 0 ≤ col ∧ col < 7 ∧
        cellAt g.board 0 col.toNat = none := by
  constructor
  · intro h
    by_cases h1 : g.winner = none
    swap
    · unfold Game.makeMove at h; rw [if_pos (by simp [h1])] at h; cases h
    by_cases h2 : color = g.currentPlayer
    swap
    · unfold Game.makeMove at h
      rw [if_neg (by simp [h1]), if_pos h2] at h; cases h
    by_cases h3 : col < 0 ∨ 7 ≤ col
    · unfold Game.makeMove at h
      rw [if_neg (by simp [h1]), if_neg (by simp [h2]), if_pos h3] at h
      cases h
    by_cases h5 : cellAt g.board 0 col.toNat = none
    swap
    · unfold Game.makeMove at h
      rw [if_neg (by simp [h1]), if_neg (by simp [h2]), if_neg h3,
        if_pos (by simp [h5])] at h
      cases h
    exact ⟨h1, h2, by omega, by omega, h5⟩
  · rintro ⟨h1, h2, h3, h4, h5⟩
    obtain ⟨row, hrow⟩ := getLowestRow_isSome_of_top_empty g.board col.toNat h5
    rw [makeMove_accepted_eq g col color row h1 h2 h3 h4 h5 hrow]
    split
    · rfl
    · split <;> rfl

theorem makeMove_board_of_ok (g : Game) (col : Int) (color : PlayerColor)
    (h : (g.makeMove col color).2 = true) :
    ∃ row, getLowestRow g.board col.toNat = some row ∧
      (g.makeMove col color).1.board =
        setCell g.board row col.toNat (some color) := by
  obtain ⟨h1, h2, h3, h4, h5⟩ := (makeMove_ok_iff g col color).mp h
  obtain ⟨row, hrow⟩ := getLowestRow_isSome_of_top_empty g.board col.toNat h5
  refine ⟨row, hrow, ?_⟩
  rw [makeMove_accepted_eq g col color row h1 h2 h3 h4 h5 hrow]
  split
  · rfl
  · split <;> rfl

theorem wouldWinMut_fst (g : Game) (col : Int) (color : PlayerColor) :
    (g.wouldWinMut col color).1 = g := by
  unfold Game.wouldWinMut
  split
  · rfl
  · split
    · rfl
    · rename_i hrow
      obtain ⟨hempty, -, -⟩ := getLowestRow_spec _ _ _ hrow
      simp only [setCell_setCell, setCell_none_of_none _ _ _ hempty]

/-! ## Concrete fixtures used by witnesses -/

def emptyBoard : Board := List.replicate 6 (List.replicate 7 none)

def game0 : Game := ⟨emptyBoard, .red, none, 0⟩

/-- Test harness: fold `makeMove` over a move list. -/
def applyMoves (g : Game) (moves : List (Int × PlayerColor)) : Game :=
  moves.foldl (fun g m => (g.makeMove m.1 m.2).1) g

/-- Bottom-row horizontal red win in 7 plies. -/
def gameRedWin : Game :=
  applyMoves game0
    [(0, .red), (0, .yellow), (1, .red), (1, .yellow), (2, .red),
     (2, .yellow), (3, .red)]

/-- Mid-game position: red on (5,0) and (5,1), yellow on (4,0). -/
def gameMid : Game :=
  applyMoves game0 [(0, .red), (0, .yellow), (1, .red)]

/-! ## Claims about `Game.makeMove` -/

/-- C1: `makeMove(column, color)` is accepted iff the outcome is still
in-progress, `color` is the color of the turn holder, the column is in
range 0..6 and the top cell of the column is empty; on acceptance the disc is placed
(by `setCell`) in the lowest empty row of that column, and a rejected call
leaves the session state exactly as it was. -/
theorem makeMove_spec (g : Game) (col : Int) (color : PlayerColor) :
    ((g.makeMove col color).2 = true ↔
      g.winner = none ∧ color = g.currentPlayer ∧ 0 ≤ col ∧ col < 7 ∧
        cellAt g.board 0 col.toNat = none) ∧
    ((g.makeMove col color).2 = false → (g.makeMove col color).1 = g) ∧
    (∀ row, getLowestRow g.board col.toNat = some row →
      (g.makeMove col color).2 = true →
      (g.makeMove col color).1.board =
          setCell g.board row col.toNat (some color) ∧
        cellAt g.board row col.toNat = none ∧
        ∀ r', row < r' → r' ≤ 5 → cellAt g.board r' col.toNat ≠ none) := by
  refine ⟨makeMove_ok_iff g col color, makeMove_rejected g col color, ?_⟩
  intro row hrow hok
  obtain ⟨row', hrow', hboard⟩ := makeMove_board_of_ok g col color hok
  rw [hrow] at hrow'
  cases hrow'
  obtain ⟨hempty, -, hbelow⟩ := getLowestRow_spec _ _ _ hrow
  exact ⟨hboard, hempty, hbelow⟩

theorem makeMove_spec_witness :
    (game0.makeMove 3 .red).2 = true ∧
      (game0.makeMove 3 .red).1.board =
        setCell game0.board 5 3 (some PlayerColor.red) :=
  ⟨by decide,
    (((makeMove_spec game0 3 .red).2.2 5 (by decide) (by decide)).1)⟩

/-- C4: the outcome is absorbing — once `winner` is set, `makeMove` is
rejected with no state change, and the mutate-then-restore trial evaluation
`wouldWin` also leaves the session state unchanged. -/
theorem outcome_absorbing (g : Game) (col : Int) (color : PlayerColor)
    (w : GameResult) (h : g.winner = some w) :
    g.makeMove col color = (g, false) ∧ (g.wouldWinMut col color).1 = g := by
  constructor
  · unfold Game.makeMove
    rw [if_pos (by simp [h])]
  · exact wouldWinMut_fst g col color

theorem outcome_absorbing_witness :
    gameRedWin.winner = some GameResult.red ∧
      gameRedWin.makeMove 4 .yellow = (gameRedWin, false) :=
  ⟨by decide, (outcome_absorbing gameRedWin 4 .yellow .red (by decide)).1⟩

/-- C5: on an accepted move the win check runs before the fullness check —
a move that completes four-in-a-row sets the winning outcome of the mover
even if
it also fills the top row, and `draw` is set exactly when the move detects
no win and the board is full afterwards. -/
theorem win_before_draw (g : Game) (col : Int) (color : PlayerColor)
    (row : Nat) (h1 : g.winner = none) (h2 : color = g.currentPlayer)
    (h3 : 0 ≤ col) (h4 : col < 7)
    (h5 : cellAt g.board 0 col.toNat = none)
    (h6 : getLowestRow g.board col.toNat = some row) :
    (checkWin (setCell g.board row col.toNat (some color)) row col.toNat
        color = true →
      (g.makeMove col color).1.winner = some color.toResult) ∧
    ((g.makeMove col color).1.winner = some GameResult.draw ↔
      checkWin (setCell g.board row col.toNat (some color)) row col.toNat
          color = false ∧
        isBoardFull (setCell g.board row col.toNat (some color)) = true) := by
  rw [makeMove_accepted_eq g col color row h1 h2 h3 h4 h5 h6]
  constructor
  · intro hw
    rw [if_pos hw]
  · constructor
    · intro hd
      by_cases hw : checkWin (setCell g.board row col.toNat (some color)) row
          col.toNat color = true
      · rw [if_pos hw] at hd
        have hd' : some color.toResult = some GameResult.draw := hd
        cases color <;> cases hd'
      · rw [if_neg hw] at hd
        refine ⟨by simpa using hw, ?_⟩
        by_cases hf : isBoardFull (setCell g.board row col.toNat (some color))
            = true
        · exact hf
        · rw [if_neg hf] at hd
          have hd' : g.winner = some GameResult.draw := hd
          rw [h1] at hd'
          cases hd'
    · rintro ⟨hw, hf⟩
      rw [if_neg (by simp [hw]), if_pos hf]

theorem win_before_draw_witness :
    getLowestRow game0.board 3 = some 5 ∧
      ((game0.makeMove 3 .red).1.winner = some GameResult.draw ↔
        checkWin (setCell game0.board 5 3 (some PlayerColor.red)) 5 3 .red
            = false ∧
          isBoardFull (setCell game0.board 5 3 (some PlayerColor.red))
            = true) :=
  ⟨by decide,
    (win_before_draw game0 3 .red 5 (by decide) (by decide) (by decide)
      (by decide) (by decide) (by decide)).2⟩

/-- C6: a move by an identity that is not a seat holder, by a seat not on
turn, or rejected by the board engine (out of range / full column) leaves
the session — board, outcome, move count and turn — exactly as before and
emits nothing; repeating the call changes nothing either. -/
theorem rejected_move_noop (s : Session) (u : String) (col : Int)
    (h : findPlayerByUsername s.players u = none ∨
      ∃ p, findPlayerByUsername s.players u = some p ∧
        (p.color ≠ s.game.currentPlayer ∨ col < 0 ∨ 7 ≤ col ∨
          cellAt s.game.board 0 col.toNat ≠ none)) :
    sessionMakeMove s u col = (s, []) ∧
      sessionMakeMove (sessionMakeMove s u col).1 u col = (s, []) := by
  have hmain : sessionMakeMove s u col = (s, []) := by
    rcases h with hnone | ⟨p, hp, hrej⟩
    · unfold sessionMakeMove
      rw [hnone]
    · have hko : (s.game.makeMove col p.color).2 ≠ true := by
        intro hok
        obtain ⟨-, hturn, hge, hlt, htop⟩ :=
          (makeMove_ok_iff s.game col p.color).mp hok
        rcases hrej with h' | h' | h' | h'
        · exact h' hturn
        · omega
        · omega
        · exact h' htop
      unfold sessionMakeMove
      rw [hp]
      simp only [Bool.not_eq_true] at hko
      simp [hko]
  exact ⟨hmain, by rw [hmain]; exact hmain⟩

def sessionHH : Session :=
  ⟨"s1", (⟨"alice", .red, false⟩, ⟨"bob", .yellow, false⟩), game0⟩

theorem rejected_move_noop_witness :
    (∃ p, findPlayerByUsername sessionHH.players "bob" = some p ∧
      p.color ≠ sessionHH.game.currentPlayer) ∧
      sessionMakeMove sessionHH "bob" 3 = (sessionHH, []) :=
  ⟨⟨⟨"bob", .yellow, false⟩, by decide, by decide⟩,
    (rejected_move_noop sessionHH "bob" 3
      (Or.inr ⟨⟨"bob", .yellow, false⟩, by decide, Or.inl (by decide)⟩)).1⟩

/-- C8: a non-empty cell of the live board never reverts to empty —
`makeMove` preserves every occupied cell, and the mutate-then-restore trial
evaluation `wouldWin` returns the session (board included) exactly as it
found it. -/
theorem occupied_cells_persist (g : Game) (col : Int) (color : PlayerColor) :
    (∀ r c x, cellAt g.board r c = some x →
      cellAt (g.makeMove col color).1.board r c = some x) ∧
    (g.wouldWinMut col color).1 = g := by
  refine ⟨?_, wouldWinMut_fst g col color⟩
  intro r c x hx
  rcases makeMove_cases g col color with hc | hc
  · rw [hc]; exact hx
  · obtain ⟨row, hrow, hboard⟩ := makeMove_board_of_ok g col color hc
    rw [hboard]
    obtain ⟨hempty, -, -⟩ := getLowestRow_spec _ _ _ hrow
    have hne : r ≠ row ∨ c ≠ col.toNat := by
      by_contra hcon
      push_neg at hcon
      rw [hcon.1, hcon.2, hempty] at hx
      cases hx
    rw [cellAt_setCell_ne _ _ _ _ _ _ hne]
    exact hx

theorem occupied_cells_persist_witness :
    cellAt gameMid.board 5 0 = some PlayerColor.red ∧
      cellAt (gameMid.makeMove 2 .red).1.board 5 0 = some PlayerColor.red :=
  ⟨by decide, (occupied_cells_persist gameMid 2 .red).1 5 0 .red (by decide)⟩

/-! ## Contiguous runs: spec-level form of win/threat detection -/

/-- Spec-level statement that cell `(r, c)` lies inside a window of `n`
contiguous same-color cells along the axis `(dr, dc)`: the cell sits at
index `k` of the window and all `n` window cells are on the board and hold
`color`. -/
def hasRunThrough (b : Board) (color : PlayerColor) (r c : Nat)
    (dr dc : Int) (n : Nat) : Prop :=
  ∃ k : Fin n, ∀ i : Fin n,
    cellIs b color ((r : Int) + ((i : Int) - (k : Int)) * dr)
      ((c : Int) + ((i : Int) - (k : Int)) * dc) = true

instance (b : Board) (color : PlayerColor) (r c : Nat) (dr dc : Int)
    (n : Nat) : Decidable (hasRunThrough b color r c dr dc n) := by
  unfold hasRunThrough; infer_instance

theorem countDirAux_sound (b : Board) (color : PlayerColor) (dr dc : Int) :
    ∀ (fuel : Nat) (r c : Int) (j : Nat),
      j < countDirAux b color dr dc fuel r c →
      cellIs b color (r + j * dr) (c + j * dc) = true := by
  intro fuel
  induction fuel with
  | zero => intro r c j h; simp [countDirAux] at h
  | succ fuel ih =>
    intro r c j h
    unfold countDirAux at h
    by_cases hg : cellIs b color r c = true
    · rw [if_pos hg] at h
      cases j with
      | zero => simpa using hg
      | succ j =>
        have hj : j < countDirAux b color dr dc fuel (r + dr) (c + dc) := by
          omega
        have := ih (r + dr) (c + dc) j hj
        have harith :
            r + dr + (j : Int) * dr = r + ((j : Nat) + 1 : Nat) * dr ∧
              c + dc + (j : Int) * dc = c + ((j : Nat) + 1 : Nat) * dc := by
          constructor <;> (push_cast; ring)
        rwa [harith.1, harith.2] at this
    · rw [if_neg hg] at h
      omega

theorem countDirAux_complete (b : Board) (color : PlayerColor)
    (dr dc : Int) :
    ∀ (fuel n : Nat) (r c : Int), n ≤ fuel →
      (∀ j : Nat, j < n → cellIs b color (r + j * dr) (c + j * dc) = true) →
      n ≤ countDirAux b color dr dc fuel r c := by
  intro fuel
  induction fuel with
  | zero => intro n r c hn _; omega
  | succ fuel ih =>
    intro n r c hn hall
    cases n with
    | zero => omega
    | succ n =>
      have hg : cellIs b color r c = true := by
        have := hall 0 (by omega)
        simpa using this
      unfold countDirAux
      rw [if_pos hg]
      have hrest : n ≤ countDirAux b color dr dc fuel (r + dr) (c + dc) := by
        refine ih n (r + dr) (c + dc) (by omega) ?_
        intro j hj
        have := hall (j + 1) (by omega)
        have harith :
            r + ((j : Nat) + 1 : Nat) * dr = r + dr + (j : Int) * dr ∧
              c + ((j : Nat) + 1 : Nat) * dc = c + dc + (j : Int) * dc := by
          constructor <;> (push_cast; ring)
        rwa [harith.1, harith.2] at this
      omega

/-- Cells `1 .. count` outward of the placed cell all hold `color`. -/
theorem countInDirection_sound (b : Board) (row col : Nat)
    (color : PlayerColor) (dr dc : Int) (j : Nat) (h1 : 1 ≤ j)
    (h2 : j ≤ countInDirection b row col color dr dc) :
    cellIs b color ((row : Int) + j * dr) ((col : Int) + j * dc) = true := by
  unfold countInDirection at h2
  have := countDirAux_sound b color dr dc 8 ((row : Int) + dr)
    ((col : Int) + dc) (j - 1) (by omega)
  have harith :
      (row : Int) + dr + ((j - 1 : Nat) : Int) * dr = (row : Int) + j * dr ∧
        (col : Int) + dc + ((j - 1 : Nat) : Int) * dc
          = (col : Int) + j * dc := by
    have hj : ((j - 1 : Nat) : Int) = (j : Int) - 1 := by omega
    rw [hj]
    constructor <;> ring
  rwa [harith.1, harith.2] at this

/-- If cells `1 .. n` outward all hold `color`, the count reaches `n`. -/
theorem countInDirection_complete (b : Board) (row col : Nat)
    (color : PlayerColor) (dr dc : Int) (n : Nat) (hn : n ≤ 8)
    (h : ∀ j : Nat, 1 ≤ j → j ≤ n →
      cellIs b color ((row : Int) + j * dr) ((col : Int) + j * dc) = true) :
    n ≤ countInDirection b row col color dr dc := by
  unfold countInDirection
  refine countDirAux_complete b color dr dc 8 n ((row : Int) + dr)
    ((col : Int) + dc) hn ?_
  intro j hj
  have := h (j + 1) (by omega) (by omega)
  have harith :
      (row : Int) + ((j : Nat) + 1 : Nat) * dr
          = (row : Int) + dr + (j : Int) * dr ∧
        (col : Int) + ((j : Nat) + 1 : Nat) * dc
          = (col : Int) + dc + (j : Int) * dc := by
    constructor <;> (push_cast; ring)
  rwa [harith.1, harith.2] at this

/-- The both-ways count of the source through the placed cell reaches `n`
exactly
when the cell lies in a window of `n` contiguous same-color cells on that
axis.  `n ≤ 8` keeps the claim inside the iteration budget of the loop (on
the
6×7 board the run lengths that matter are 3 and 4). -/
theorem count_iff_runThrough (b : Board) (color : PlayerColor)
    (row col : Nat) (dr dc : Int) (n : Nat) (hn1 : 1 ≤ n) (hn8 : n ≤ 8)
    (hc : cellIs b color row col = true) :
    (n ≤ 1 + countInDirection b row col color dr dc
        + countInDirection b row col color (-dr) (-dc)) ↔
      hasRunThrough b color row col dr dc n := by
  constructor
  · intro h
    set p := countInDirection b row col color dr dc with hp
    set q := countInDirection b row col color (-dr) (-dc) with hq
    refine ⟨⟨min q (n - 1), by omega⟩, ?_⟩
    intro i
    rcases lt_trichotomy ((i : Int) - (min q (n - 1) : Nat)) 0 with ho | ho | ho
    · -- negative side: offset -j with 1 ≤ j ≤ q
      set j : Nat := ((min q (n - 1) : Nat) - (i : Nat) : Nat) with hj
      have hji : (j : Int) = (min q (n - 1) : Nat) - (i : Int) := by
        have : (i : Nat) < min q (n - 1) := by omega
        omega
      have h1 : 1 ≤ j := by omega
      have h2 : j ≤ q := by omega
      have := countInDirection_sound b row col color (-dr) (-dc) j h1 h2
      have harith :
          (row : Int) + j * (-dr)
              = (row : Int) + ((i : Int) - (min q (n - 1) : Nat)) * dr ∧
            (col : Int) + j * (-dc)
              = (col : Int) + ((i : Int) - (min q (n - 1) : Nat)) * dc := by
        rw [hji]
        constructor <;> ring
      rwa [harith.1, harith.2] at this
    · rw [ho]
      simpa using hc
    · -- positive side: offset j with 1 ≤ j ≤ p
      set j : Nat := ((i : Nat) - (min q (n - 1) : Nat) : Nat) with hj
      have hji : (j : Int) = (i : Int) - (min q (n - 1) : Nat) := by
        have : (min q (n - 1) : Nat) < (i : Nat) := by omega
        omega
      have h1 : 1 ≤ j := by omega
      have h2 : j ≤ p := by
        have hi : (i : Nat) ≤ n - 1 := by omega
        have hcase : min q (n - 1) = q ∨ min q (n - 1) = n - 1 := by omega
        rcases hcase with hmin | hmin
        · omega
        · omega
      have := countInDirection_sound b row col color dr dc j h1 h2
      have harith :
          (row : Int) + j * dr
              = (row : Int) + ((i : Int) - (min q (n - 1) : Nat)) * dr ∧
            (col : Int) + j * dc
              = (col : Int) + ((i : Int) - (min q (n - 1) : Nat)) * dc := by
        rw [hji]
        constructor <;> ring
      rwa [harith.1, harith.2] at this
  · rintro ⟨k, hk⟩
    have hpos : (n - 1) - (k : Nat) ≤ countInDirection b row col color dr dc := by
      refine countInDirection_complete b row col color dr dc _ (by omega) ?_
      intro j h1 h2
      have hi : (k : Nat) + j < n := by omega
      have := hk ⟨(k : Nat) + j, hi⟩
      have harith :
          (row : Int) + (((⟨(k : Nat) + j, hi⟩ : Fin n) : Int) - (k : Int)) * dr
              = (row : Int) + j * dr ∧
            (col : Int) + (((⟨(k : Nat) + j, hi⟩ : Fin n) : Int) - (k : Int)) * dc
              = (col : Int) + j * dc := by
        have : ((⟨(k : Nat) + j, hi⟩ : Fin n) : Int) - (k : Int) = (j : Int) := by
          simp
        rw [this]
        exact ⟨rfl, rfl⟩
      rwa [harith.1, harith.2] at this
    have hneg : (k : Nat) ≤ countInDirection b row col color (-dr) (-dc) := by
      refine countInDirection_complete b row col color (-dr) (-dc) _ (by omega) ?_
      intro j h1 h2
      have hi : (k : Nat) - j < n := by omega
      have := hk ⟨(k : Nat) - j, hi⟩
      have harith :
          (row : Int) + (((⟨(k : Nat) - j, hi⟩ : Fin n) : Int) - (k : Int)) * dr
              = (row : Int) + j * (-dr) ∧
            (col : Int) + (((⟨(k : Nat) - j, hi⟩ : Fin n) : Int) - (k : Int)) * dc
              = (col : Int) + j * (-dc) := by
        have hv : ((⟨(k : Nat) - j, hi⟩ : Fin n) : Int) - (k : Int)
            = -(j : Int) := by
          have : ((⟨(k : Nat) - j, hi⟩ : Fin n) : Nat) = (k : Nat) - j := rfl
          have hk2 : j ≤ (k : Nat) := h2
          simp only [Fin.val]
          omega
        rw [hv]
        constructor <;> ring
      rwa [harith.1, harith.2] at this
    omega

/-- C2: after a placement at `(row, col)` the win check succeeds exactly
when, on one of the four axes, the placed cell lies in a window of four
contiguous same-color cells (outward counts in both directions plus the
placed cell counted once reaching 4). -/
theorem checkWin_iff_runThrough (b : Board) (row col : Nat)
    (color : PlayerColor) (hrow : row < 6) (hcol : col < 7)
    (hcell : cellAt b row col = some color) :
    checkWin b row col color = true ↔
      ∃ d ∈ axes, hasRunThrough b color row col d.1 d.2 4 := by
  have hc : cellIs b color row col = true := by
    unfold cellIs
    simp only [Bool.and_eq_true, decide_eq_true_eq]
    refine ⟨⟨⟨⟨Int.natCast_nonneg row, by exact_mod_cast hrow⟩,
      Int.natCast_nonneg col⟩, by exact_mod_cast hcol⟩, ?_⟩
    simpa using hcell
  unfold checkWin
  rw [if_pos hcell]
  unfold checkDirection
  simp only [Bool.or_eq_true, decide_eq_true_eq]
  constructor
  · rintro (((h | h) | h) | h)
    · exact ⟨(0, 1), by simp [axes],
        (count_iff_runThrough b color row col 0 1 4 (by omega) (by omega)
          hc).mp h⟩
    · exact ⟨(1, 0), by simp [axes],
        (count_iff_runThrough b color row col 1 0 4 (by omega) (by omega)
          hc).mp h⟩
    · exact ⟨(1, 1), by simp [axes],
        (count_iff_runThrough b color row col 1 1 4 (by omega) (by omega)
          hc).mp h⟩
    · exact ⟨(1, -1), by simp [axes],
        (count_iff_runThrough b color row col 1 (-1) 4 (by omega) (by omega)
          hc).mp h⟩
  · rintro ⟨d, hd, hrun⟩
    simp only [axes, List.mem_cons, List.not_mem_nil, or_false] at hd
    rcases hd with hd | hd | hd | hd
    all_goals subst hd
    · exact Or.inl (Or.inl (Or.inl
        ((count_iff_runThrough b color row col 0 1 4 (by omega) (by omega)
          hc).mpr hrun)))
    · exact Or.inl (Or.inl (Or.inr
        ((count_iff_runThrough b color row col 1 0 4 (by omega) (by omega)
          hc).mpr hrun)))
    · exact Or.inl (Or.inr
        ((count_iff_runThrough b color row col 1 1 4 (by omega) (by omega)
          hc).mpr hrun))
    · exact Or.inr
        ((count_iff_runThrough b color row col 1 (-1) 4 (by omega) (by omega)
          hc).mpr hrun)

theorem checkWin_iff_runThrough_witness :
    cellAt gameRedWin.board 5 3 = some PlayerColor.red ∧
      (checkWin gameRedWin.board 5 3 .red = true ↔
        ∃ d ∈ axes, hasRunThrough gameRedWin.board .red 5 3 d.1 d.2 4) :=
  ⟨by decide,
    checkWin_iff_runThrough gameRedWin.board 5 3 .red (by decide) (by decide)
      (by decide)⟩

/-! ## The scoring formula of the heuristic (C7) -/

theorem length_setCell :
    ∀ (b : Board) (r c : Nat) (v : Cell), (setCell b r c v).length = b.length
  | [], _, _, _ => rfl
  | _ :: rest, 0, _, _ => by simp [setCell]
  | row :: rest, r + 1, c, v => by
    show (setCell rest r c v).length + 1 = rest.length + 1
    rw [length_setCell]

theorem rowAt_mem : ∀ (b : Board) (r : Nat), r < b.length → rowAt b r ∈ b
  | [], r, h => absurd h (by simp)
  | row :: rest, 0, _ => List.mem_cons_self row rest
  | _ :: rest, r + 1, h =>
    List.mem_cons_of_mem _
      (rowAt_mem rest r (Nat.succ_lt_succ_iff.mp (by simpa using h)))

/-- Spec-side count of threat axes: axes on which the cell lies inside a
window of 3 contiguous same-color cells. -/
def specThreatAxes (b : Board) (row col : Nat) (color : PlayerColor) : Nat :=
  axes.countP fun d => decide (hasRunThrough b color row col d.1 d.2 3)

theorem countThreats_eq_spec (b : Board) (row col : Nat)
    (color : PlayerColor) (hc : cellIs b color row col = true) :
    countThreats b row col color = specThreatAxes b row col color := by
  unfold countThreats specThreatAxes
  refine List.countP_congr ?_
  intro d _
  show decide (3 ≤ countConsecutive b row col color d.1 d.2) = true ↔
      decide (hasRunThrough b color row col d.1 d.2 3) = true
  simp only [decide_eq_true_eq]
  unfold countConsecutive
  exact count_iff_runThrough b color row col d.1 d.2 3 (by omega) (by omega)
    hc

/-- The placed cell itself satisfies the `while`-guard predicate. -/
theorem cellIs_setCell_self (b : Board) (row col : Nat)
    (color : PlayerColor) (hlen : b.length = 6)
    (hrowlen : (rowAt b row).length = 7) (hrow : row < 6) (hcol : col < 7) :
    cellIs (setCell b row col (some color)) color row col = true := by
  unfold cellIs
  simp only [Bool.and_eq_true, decide_eq_true_eq]
  refine ⟨⟨⟨⟨Int.natCast_nonneg row, by exact_mod_cast hrow⟩,
    Int.natCast_nonneg col⟩, by exact_mod_cast hcol⟩, ?_⟩
  have := cellAt_setCell_self b row col (some color) (by omega)
    (by omega)
  simpa using this

/-- C7: for a playable column, the heuristic score is the positional term
`(3 − |column − 3|) × 10`, plus 50 per axis holding ≥3 contiguous bot-color
cells through the landing cell once the bot disc is placed there, plus 30
per axis holding ≥3 contiguous opponent-color cells through the same cell
with the opponent disc there instead. -/
theorem evaluateMove_formula (b : Board) (bot : PlayerColor) (col row : Nat)
    (hWF : Board.WF b) (hcol : col < 7)
    (hrow : getLowestRow b col = some row) :
    evaluateMove b bot col =
      (((3 - |(col : Int) - 3|) * 10
        + (specThreatAxes (setCell b row col (some bot)) row col bot : Int)
          * 50
        + (specThreatAxes (setCell b row col (some bot.other)) row col
            bot.other : Int) * 30 : Int) : WithBot Int) := by
  obtain ⟨hlen, hrows⟩ := hWF
  obtain ⟨-, hrow5, -⟩ := getLowestRow_spec b col row hrow
  have hrowlen : (rowAt b row).length = 7 :=
    hrows _ (rowAt_mem b row (by omega))
  have hb1len : (setCell b row col (some bot)).length = 6 := by
    rw [length_setCell]; exact hlen
  have hb1rowlen :
      (rowAt (setCell b row col (some bot)) row).length = 7 := by
    rw [rowAt_setCell_self b row col (some bot) (by omega), length_setEntry]
    exact hrowlen
  have hc1 : cellIs (setCell b row col (some bot)) bot row col = true :=
    cellIs_setCell_self b row col bot hlen hrowlen (by omega) hcol
  have hc2 : cellIs (setCell b row col (some bot.other)) bot.other row col
      = true :=
    cellIs_setCell_self b row col bot.other hlen hrowlen (by omega) hcol
  have hcollapse :
      setCell (setCell b row col (some bot)) row col (some bot.other)
        = setCell b row col (some bot.other) := setCell_setCell b row col _ _
  have hx :
      (3 - |(col : Int) - 3|) * 10
          + (countThreats (setCell b row col (some bot)) row col bot : Int)
            * 50
          + (countThreats
              (setCell (setCell b row col (some bot)) row col
                (some bot.other)) row col bot.other : Int) * 30
        = (3 - |(col : Int) - 3|) * 10
          + (specThreatAxes (setCell b row col (some bot)) row col bot : Int)
            * 50
          + (specThreatAxes (setCell b row col (some bot.other)) row col
              bot.other : Int) * 30 := by
    rw [hcollapse, countThreats_eq_spec _ _ _ _ hc1,
      countThreats_eq_spec _ _ _ _ hc2]
  unfold evaluateMove
  rw [hrow]
  exact congrArg (fun z : Int => (z : WithBot Int)) hx

theorem evaluateMove_formula_witness :
    getLowestRow emptyBoard 3 = some 5 ∧
      evaluateMove emptyBoard .red 3 =
        (((3 - |(3 : Int) - 3|) * 10
          + (specThreatAxes (setCell emptyBoard 5 3 (some PlayerColor.red))
              5 3 .red : Int) * 50
          + (specThreatAxes (setCell emptyBoard 5 3
              (some PlayerColor.yellow)) 5 3 .yellow : Int) * 30 :
            Int) : WithBot Int) :=
  ⟨by decide,
    evaluateMove_formula emptyBoard .red 3 5 (by decide) (by decide)
      (by decide)⟩

/-! ## Bot move-selection lemmas -/

theorem mem_getValidMovesB (b : Board) (c : Nat) :
    c ∈ getValidMovesB b ↔ c < 7 ∧ cellAt b 0 c = none := by
  unfold getValidMovesB
  rw [List.mem_filter, List.mem_range]
  simp only [decide_eq_true_eq]

theorem getValidMovesB_sorted (b : Board) :
    (getValidMovesB b).Pairwise (· < ·) := by
  unfold getValidMovesB
  exact (List.pairwise_lt_range 7).filter _

theorem headD_mem (l : List Nat) (h : l ≠ []) : l.headD 0 ∈ l := by
  cases l with
  | nil => exact absurd rfl h
  | cons a rest => exact List.mem_cons_self a rest

theorem find?_min_of_sorted :
    ∀ (l : List Nat), l.Pairwise (· < ·) → ∀ (p : Nat → Bool) (c : Nat),
      l.find? p = some c → ∀ x ∈ l, p x = true → c ≤ x := by
  intro l
  induction l with
  | nil => intro _ p c h; cases h
  | cons a rest ih =>
    intro hpw p c h x hx hpx
    obtain ⟨ha, hrest⟩ := List.pairwise_cons.mp hpw
    by_cases hpa : p a = true
    · rw [List.find?_cons_of_pos _ hpa] at h
      cases h
      rcases List.mem_cons.mp hx with hxa | hxr
      · omega
      · exact le_of_lt (ha x hxr)
    · rw [List.find?_cons_of_neg _ (by simpa using hpa)] at h
      rcases List.mem_cons.mp hx with hxa | hxr
      · rw [hxa] at hpx; exact absurd hpx hpa
      · exact ih hrest p c h x hxr hpx

theorem find?_isSome_of_mem (l : List Nat) (p : Nat → Bool) (x : Nat)
    (hx : x ∈ l) (hpx : p x = true) : ∃ c, l.find? p = some c := by
  cases hfind : l.find? p with
  | none =>
    have := List.find?_eq_none.mp hfind x hx
    exact absurd hpx this
  | some c => exact ⟨c, rfl⟩

theorem pickBest_cons (b : Board) (bot : PlayerColor) (a : Nat)
    (rest : List Nat) (bm : Nat) (bs : WithBot Int) :
    pickBest b bot (a :: rest) (bm, bs) =
      if bs < evaluateMove b bot a then
        pickBest b bot rest (a, evaluateMove b bot a)
      else pickBest b bot rest (bm, bs) := rfl

/-- Running max/argmax facts about the scoring loop. -/
theorem pickBest_acc (b : Board) (bot : PlayerColor) :
    ∀ (l : List Nat) (bm : Nat) (bs : WithBot Int),
      bs ≤ (pickBest b bot l (bm, bs)).2 ∧
      (∀ c ∈ l, evaluateMove b bot c ≤ (pickBest b bot l (bm, bs)).2) ∧
      (((pickBest b bot l (bm, bs)).1 = bm ∧
          (pickBest b bot l (bm, bs)).2 = bs) ∨
        ((pickBest b bot l (bm, bs)).1 ∈ l ∧
          (pickBest b bot l (bm, bs)).2
              = evaluateMove b bot (pickBest b bot l (bm, bs)).1 ∧
          bs < (pickBest b bot l (bm, bs)).2)) := by
  intro l
  induction l with
  | nil =>
    intro bm bs
    exact ⟨le_refl _, by simp, Or.inl ⟨rfl, rfl⟩⟩
  | cons a rest ih =>
    intro bm bs
    by_cases hlt : bs < evaluateMove b bot a
    · have hrec := ih a (evaluateMove b bot a)
      have hstep : pickBest b bot (a :: rest) (bm, bs)
          = pickBest b bot rest (a, evaluateMove b bot a) := by
        rw [pickBest_cons, if_pos hlt]
      rw [hstep]
      refine ⟨le_trans (le_of_lt hlt) hrec.1, ?_, ?_⟩
      · intro c hc
        rcases List.mem_cons.mp hc with hca | hcr
        · rw [hca]; exact hrec.1
        · exact hrec.2.1 c hcr
      · rcases hrec.2.2 with ⟨h1, h2⟩ | ⟨h1, h2, h3⟩
        · exact Or.inr ⟨by rw [h1]; exact List.mem_cons_self a rest,
            by rw [h1, h2], by rw [h2]; exact hlt⟩
        · exact Or.inr ⟨List.mem_cons_of_mem a h1, h2,
            lt_trans hlt h3⟩
    · have hrec := ih bm bs
      have hstep : pickBest b bot (a :: rest) (bm, bs)
          = pickBest b bot rest (bm, bs) := by
        rw [pickBest_cons, if_neg hlt]
      rw [hstep]
      refine ⟨hrec.1, ?_, ?_⟩
      · intro c hc
        rcases List.mem_cons.mp hc with hca | hcr
        · rw [hca]
          exact le_trans (not_lt.mp hlt) hrec.1
        · exact hrec.2.1 c hcr
      · rcases hrec.2.2 with ⟨h1, h2⟩ | ⟨h1, h2, h3⟩
        · exact Or.inl ⟨h1, h2⟩
        · exact Or.inr ⟨List.mem_cons_of_mem a h1, h2, h3⟩

/-- The loop keeps the first column attaining the final best score: a later
column replaces the running best only on strictly greater score. -/
theorem pickBest_first (b : Board) (bot : PlayerColor) :
    ∀ (l : List Nat), l.Pairwise (· < ·) → ∀ (bm : Nat) (bs : WithBot Int)
      (c : Nat), c ∈ l →
      evaluateMove b bot c = (pickBest b bot l (bm, bs)).2 →
      bs < (pickBest b bot l (bm, bs)).2 →
      (pickBest b bot l (bm, bs)).1 ≤ c := by
  intro l
  induction l with
  | nil => intro _ bm bs c hc; cases hc
  | cons a rest ih =>
    intro hpw bm bs c hc hceq hbs
    obtain ⟨ha, hrest⟩ := List.pairwise_cons.mp hpw
    by_cases hlt : bs < evaluateMove b bot a
    · have hstep : pickBest b bot (a :: rest) (bm, bs)
          = pickBest b bot rest (a, evaluateMove b bot a) := by
        rw [pickBest_cons, if_pos hlt]
      rw [hstep] at hceq hbs ⊢
      rcases List.mem_cons.mp hc with hca | hcr
      · -- c is the head; the result cannot strictly exceed the head's score
        -- while also scoring equal to c, so the head itself was kept
        rcases (pickBest_acc b bot rest a (evaluateMove b bot a)).2.2 with
          ⟨h1, h2⟩ | ⟨h1, h2, h3⟩
        · rw [h1]; omega
        · rw [hca] at hceq
          rw [← hceq] at h3
          exact absurd h3 (lt_irrefl _)
      · rcases (pickBest_acc b bot rest a (evaluateMove b bot a)).2.2 with
          ⟨h1, h2⟩ | ⟨h1, h2, h3⟩
        · rw [h1]
          exact le_of_lt (ha c hcr)
        · exact ih hrest a (evaluateMove b bot a) c hcr hceq h3
    · have hstep : pickBest b bot (a :: rest) (bm, bs)
          = pickBest b bot rest (bm, bs) := by
        rw [pickBest_cons, if_neg hlt]
      rw [hstep] at hceq hbs ⊢
      rcases List.mem_cons.mp hc with hca | hcr
      · -- the head's score is ≤ bs < final score, contradicting hceq
        have : evaluateMove b bot a ≤ bs := not_lt.mp hlt
        rw [hca] at hceq
        rw [hceq] at this
        exact absurd hbs (not_lt.mpr this)
      · exact ih hrest bm bs c hcr hceq hbs

theorem evaluateMove_ne_bot (b : Board) (bot : PlayerColor) (c : Nat)
    (h : cellAt b 0 c = none) : ∃ z : Int, evaluateMove b bot c = (z : Int) := by
  obtain ⟨row, hrow⟩ := getLowestRow_isSome_of_top_empty b c h
  unfold evaluateMove
  rw [hrow]
  exact ⟨_, rfl⟩

theorem getBestMove_mem (b : Board) (bot : PlayerColor)
    (h : getValidMovesB b ≠ []) :
    ∃ c : Nat, getBestMove b bot = (c : Int) ∧ c ∈ getValidMovesB b := by
  by_cases h1 : (getValidMovesB b).length = 1
  · refine ⟨(getValidMovesB b).headD 0, ?_, headD_mem _ h⟩
    simp only [getBestMove]
    rw [if_neg (by simp [h1]), if_pos h1]
  · have h0 : ¬ (getValidMovesB b).length = 0 := by
      intro hc
      exact h (List.length_eq_zero.mp hc)
    simp only [getBestMove]
    rw [if_neg h0, if_neg h1]
    cases hf : (getValidMovesB b).find? (fun c => botWouldWin b c bot) with
    | some c =>
      exact ⟨c, rfl, List.mem_of_find?_eq_some hf⟩
    | none =>
      cases hf2 : (getValidMovesB b).find?
          (fun c => botWouldWin b c bot.other) with
      | some c =>
        exact ⟨c, rfl, List.mem_of_find?_eq_some hf2⟩
      | none =>
        rcases (pickBest_acc b bot (getValidMovesB b)
            ((getValidMovesB b).headD 0) ⊥).2.2 with ⟨hh, -⟩ | ⟨hh, -, -⟩
        · exact ⟨_, rfl, by rw [hh]; exact headD_mem _ h⟩
        · exact ⟨_, rfl, hh⟩

/-- C10: the column choice of the heuristic is total and well-formed — it
returns
the `-1` sentinel exactly when no column is playable, otherwise a playable
column (in range with an empty top cell), so a bot move taken on the bot
turn of a non-terminal game is always accepted by the move engine. -/
theorem getBestMove_total (b : Board) (bot : PlayerColor) :
    (getBestMove b bot = -1 ↔ getValidMovesB b = []) ∧
    (getValidMovesB b ≠ [] → ∃ c : Nat, getBestMove b bot = (c : Int) ∧
      c ∈ getValidMovesB b ∧ c < 7 ∧ cellAt b 0 c = none) ∧
    (∀ g : Game, g.board = b → g.winner = none → g.currentPlayer = bot →
      getValidMovesB b ≠ [] →
      (g.makeMove (getBestMove b bot) bot).2 = true) := by
  have hmain : getValidMovesB b ≠ [] →
      ∃ c : Nat, getBestMove b bot = (c : Int) ∧ c ∈ getValidMovesB b ∧
        c < 7 ∧ cellAt b 0 c = none := by
    intro h
    obtain ⟨c, hc, hmem⟩ := getBestMove_mem b bot h
    obtain ⟨h7, htop⟩ := (mem_getValidMovesB b c).mp hmem
    exact ⟨c, hc, hmem, h7, htop⟩
  refine ⟨⟨?_, ?_⟩, hmain, ?_⟩
  · intro hm1
    by_cases h : getValidMovesB b = []
    · exact h
    · obtain ⟨c, hc, -, -, -⟩ := hmain h
      rw [hc] at hm1
      have : (0 : Int) ≤ (c : Int) := Int.natCast_nonneg c
      omega
  · intro h
    simp only [getBestMove]
    rw [if_pos (by rw [h]; rfl)]
  · intro g hb hw hcp h
    obtain ⟨c, hc, -, h7, htop⟩ := hmain h
    rw [hc]
    refine (makeMove_ok_iff g (c : Int) bot).mpr
      ⟨hw, hcp.symm, Int.natCast_nonneg c, by exact_mod_cast h7, ?_⟩
    rw [hb]
    simpa using htop

theorem getBestMove_total_witness :
    getValidMovesB emptyBoard ≠ [] ∧
      (∃ c : Nat, getBestMove emptyBoard .red = (c : Int) ∧
        c ∈ getValidMovesB emptyBoard ∧ c < 7 ∧
        cellAt emptyBoard 0 c = none) :=
  ⟨by decide, (getBestMove_total emptyBoard .red).2.1 (by decide)⟩

/-- C3: with more than one playable column the bot picks, in strict priority
order, the lowest-indexed immediately-winning column; otherwise the
lowest-indexed column whose opponent-color fill would win for the opponent;
otherwise the maximum-scoring playable column with ties broken towards the
lowest index (a later column replaces the best only on strictly greater
score).  The first conjunct holds whether or not a blocking column also
exists, so a winning column always beats a blocking one. -/
theorem getBestMove_priority (b : Board) (bot : PlayerColor)
    (h2 : 1 < (getValidMovesB b).length) :
    (∀ w ∈ getValidMovesB b, botWouldWin b w bot = true →
      ∃ c : Nat, getBestMove b bot = (c : Int) ∧ c ∈ getValidMovesB b ∧
        botWouldWin b c bot = true ∧
        ∀ c' ∈ getValidMovesB b, botWouldWin b c' bot = true → c ≤ c') ∧
    ((∀ c' ∈ getValidMovesB b, botWouldWin b c' bot = false) →
      ∀ w ∈ getValidMovesB b, botWouldWin b w bot.other = true →
      ∃ c : Nat, getBestMove b bot = (c : Int) ∧ c ∈ getValidMovesB b ∧
        botWouldWin b c bot.other = true ∧
        ∀ c' ∈ getValidMovesB b, botWouldWin b c' bot.other = true →
          c ≤ c') ∧
    ((∀ c' ∈ getValidMovesB b, botWouldWin b c' bot = false) →
      (∀ c' ∈ getValidMovesB b, botWouldWin b c' bot.other = false) →
      ∃ c : Nat, getBestMove b bot = (c : Int) ∧ c ∈ getValidMovesB b ∧
        (∀ c' ∈ getValidMovesB b,
          evaluateMove b bot c' ≤ evaluateMove b bot c) ∧
        (∀ c' ∈ getValidMovesB b,
          evaluateMove b bot c' = evaluateMove b bot c → c ≤ c')) := by
  have hsorted := getValidMovesB_sorted b
  have h0 : ¬ (getValidMovesB b).length = 0 := by omega
  have h1 : ¬ (getValidMovesB b).length = 1 := by omega
  have hne : getValidMovesB b ≠ [] := by
    intro hc
    rw [hc] at h2
    simp at h2
  refine ⟨?_, ?_, ?_⟩
  · intro w hw hww
    obtain ⟨c, hfind⟩ :=
      find?_isSome_of_mem _ (fun c => botWouldWin b c bot) w hw hww
    refine ⟨c, ?_, List.mem_of_find?_eq_some hfind,
      (by have := List.find?_some hfind; simpa using this),
      fun c' hc' hww' =>
        find?_min_of_sorted _ hsorted _ c hfind c' hc' hww'⟩
    simp only [getBestMove]
    rw [if_neg h0, if_neg h1, hfind]
  · intro hnone w hw hblock
    have hf1 : (getValidMovesB b).find? (fun c => botWouldWin b c bot)
        = none :=
      List.find?_eq_none.mpr (fun x hx => by simp [hnone x hx])
    obtain ⟨c, hfind⟩ :=
      find?_isSome_of_mem _ (fun c => botWouldWin b c bot.other) w hw hblock
    refine ⟨c, ?_, List.mem_of_find?_eq_some hfind,
      (by have := List.find?_some hfind; simpa using this),
      fun c' hc' hww' =>
        find?_min_of_sorted _ hsorted _ c hfind c' hc' hww'⟩
    simp only [getBestMove]
    rw [if_neg h0, if_neg h1, hf1, hfind]
  · intro hnone1 hnone2
    have hf1 : (getValidMovesB b).find? (fun c => botWouldWin b c bot)
        = none :=
      List.find?_eq_none.mpr (fun x hx => by simp [hnone1 x hx])
    have hf2 : (getValidMovesB b).find? (fun c => botWouldWin b c bot.other)
        = none :=
      List.find?_eq_none.mpr (fun x hx => by simp [hnone2 x hx])
    have hacc := pickBest_acc b bot (getValidMovesB b)
      ((getValidMovesB b).headD 0) ⊥
    have hmemhead : (getValidMovesB b).headD 0 ∈ getValidMovesB b :=
      headD_mem _ hne
    obtain ⟨z, hz⟩ := evaluateMove_ne_bot b bot ((getValidMovesB b).headD 0)
      ((mem_getValidMovesB b _).mp hmemhead).2
    rcases hacc.2.2 with ⟨hr1, hr2⟩ | ⟨hr1, hr2, hr3⟩
    · exfalso
      have hle := hacc.2.1 _ hmemhead
      rw [hr2, hz] at hle
      exact absurd (le_bot_iff.mp hle) (WithBot.coe_ne_bot)
    · refine ⟨(pickBest b bot (getValidMovesB b)
          ((getValidMovesB b).headD 0, ⊥)).1, ?_, hr1,
        fun c' hc' => by rw [← hr2]; exact hacc.2.1 c' hc',
        fun c' hc' hceq => ?_⟩
      · simp only [getBestMove]
        rw [if_neg h0, if_neg h1, hf1, hf2]
      · exact pickBest_first b bot (getValidMovesB b) hsorted
          ((getValidMovesB b).headD 0) ⊥ c' hc' (by rw [hceq, ← hr2]) hr3

def boardNearWin : Board :=
  (applyMoves game0
    [(0, .red), (0, .yellow), (1, .red), (1, .yellow), (2, .red),
     (2, .yellow)]).board

theorem getBestMove_priority_witness :
    (1 < (getValidMovesB boardNearWin).length ∧
        3 ∈ getValidMovesB boardNearWin ∧
        botWouldWin boardNearWin 3 .red = true) ∧
      ∃ c : Nat, getBestMove boardNearWin .red = (c : Int) ∧
        c ∈ getValidMovesB boardNearWin ∧
        botWouldWin boardNearWin c .red = true ∧
        ∀ c' ∈ getValidMovesB boardNearWin,
          botWouldWin boardNearWin c' .red = true → c ≤ c' :=
  ⟨⟨by decide, by decide, by decide⟩,
    (getBestMove_priority boardNearWin .red (by decide)).1 3 (by decide)
      (by decide)⟩

/-! ## Completion effects (C9) -/

theorem makeMove_of_terminal (g : Game) (col : Int) (color : PlayerColor)
    (h : g.winner ≠ none) : g.makeMove col color = (g, false) := by
  unfold Game.makeMove
  rw [if_pos h]

theorem stepSession_terminal (s : Session) (r : Req)
    (h : s.game.winner ≠ none) : stepSession s r = (s, []) := by
  cases r with
  | human u col =>
    show sessionMakeMove s u col = (s, [])
    unfold sessionMakeMove
    cases hp : findPlayerByUsername s.players u with
    | none => rfl
    | some p => simp [makeMove_of_terminal s.game col p.color h]
  | bot =>
    show sessionBotMove s = (s, [])
    unfold sessionBotMove
    rw [if_pos h]

theorem runSession_terminal (s : Session) (reqs : List Req)
    (h : s.game.winner ≠ none) : runSession s reqs = (s, []) := by
  induction reqs with
  | nil => rfl
  | cons r rest ih =>
    show (let p := stepSession s r
          let q := runSession p.1 rest
          (q.1, p.2 ++ q.2)) = (s, [])
    rw [stepSession_terminal s r h]
    show ((runSession s rest).1, [] ++ (runSession s rest).2) = (s, [])
    rw [ih]
    rfl

theorem sessionMakeMove_none (s : Session) (u : String) (col : Int)
    (hp : findPlayerByUsername s.players u = none) :
    sessionMakeMove s u col = (s, []) := by
  unfold sessionMakeMove
  rw [hp]

theorem sessionMakeMove_some (s : Session) (u : String) (col : Int)
    (p : MPlayer) (hp : findPlayerByUsername s.players u = some p) :
    sessionMakeMove s u col =
      if (s.game.makeMove col p.color).2 = true then
        ({ s with game := (s.game.makeMove col p.color).1 },
          broadcastEffects { s with game := (s.game.makeMove col p.color).1 }
            ++ if ({ s with game := (s.game.makeMove col p.color).1 } :
                  Session).game.winner = none ∧
                botOnTurn { s with game := (s.game.makeMove col p.color).1 }
                  = true
              then [Effect.scheduleBotMove s.id] else [])
      else (s, []) := by
  unfold sessionMakeMove
  rw [hp]

theorem sessionBotMove_some (s : Session) (bp : MPlayer)
    (hw : ¬ s.game.winner ≠ none)
    (hbp : getPlayerByColor s.players s.game.currentPlayer = some bp) :
    sessionBotMove s =
      if (!bp.isBot) = true then (s, [])
      else if (s.game.makeMove (getBestMove s.game.board bp.color)
          bp.color).2 = true then
        ({ s with game := (s.game.makeMove
              (getBestMove s.game.board bp.color) bp.color).1 },
          broadcastEffects { s with game := (s.game.makeMove
              (getBestMove s.game.board bp.color) bp.color).1 })
      else (s, []) := by
  unfold sessionBotMove
  rw [if_neg hw, hbp]

theorem sessionBotMove_nobody (s : Session) (hw : ¬ s.game.winner ≠ none)
    (hbp : getPlayerByColor s.players s.game.currentPlayer = none) :
    sessionBotMove s = (s, []) := by
  unfold sessionBotMove
  rw [if_neg hw, hbp]

/-- Shape of one step: a silent no-op, or an accepted move that broadcasts
(and possibly schedules the bot reply when the game goes on). -/
theorem stepSession_shape (s : Session) (r : Req) :
    stepSession s r = (s, []) ∨
    ∃ g' tail, stepSession s r =
        ({ s with game := g' },
          broadcastEffects { s with game := g' } ++ tail) ∧
      (tail = [] ∨
        (tail = [Effect.scheduleBotMove s.id] ∧ g'.winner = none)) := by
  cases r with
  | human u col =>
    have hst : stepSession s (Req.human u col) = sessionMakeMove s u col :=
      rfl
    cases hp : findPlayerByUsername s.players u with
    | none => exact Or.inl (by rw [hst, sessionMakeMove_none s u col hp])
    | some p =>
      rw [hst, sessionMakeMove_some s u col p hp]
      split
      · split
        · rename_i hcond
          exact Or.inr ⟨_, [Effect.scheduleBotMove s.id], rfl,
            Or.inr ⟨rfl, hcond.1⟩⟩
        · exact Or.inr ⟨_, [], rfl, Or.inl rfl⟩
      · exact Or.inl rfl
  | bot =>
    have hst : stepSession s Req.bot = sessionBotMove s := rfl
    by_cases hw : s.game.winner ≠ none
    · exact Or.inl (by rw [hst]; unfold sessionBotMove; rw [if_pos hw])
    · cases hbp : getPlayerByColor s.players s.game.currentPlayer with
      | none => exact Or.inl (by rw [hst, sessionBotMove_nobody s hw hbp])
      | some bp =>
        rw [hst, sessionBotMove_some s bp hw hbp]
        split
        · exact Or.inl rfl
        · split
          · exact Or.inr ⟨_, [], by rw [List.append_nil], Or.inl rfl⟩
          · exact Or.inl rfl

theorem broadcastEffects_countP (s : Session) (f : Effect → Bool)
    (hmove : ∀ u w, f (Effect.moveMsg u w) = false)
    (hterm : ∀ gid mc,
      ([Effect.publishEnded gid mc, Effect.saveGame gid mc,
        Effect.scheduleCleanup gid] : List Effect).countP f = 1) :
    (broadcastEffects s).countP f
      = if s.game.winner = none then 0 else 1 := by
  unfold broadcastEffects
  rw [List.countP_append]
  have h1 : ((([s.players.1, s.players.2].filter fun p => !p.isBot).map
      fun p => Effect.moveMsg p.username s.game.winner).countP f) = 0 := by
    rw [List.countP_eq_zero]
    intro e he
    obtain ⟨p, -, hp⟩ := List.mem_map.mp he
    rw [← hp, hmove]
    simp
  rw [h1]
  by_cases hw : s.game.winner = none
  · rw [if_pos hw, if_neg (by simp [hw])]
    rfl
  · rw [if_neg hw, if_pos (by simp [hw]), hterm]

theorem stepSession_countP (s : Session) (r : Req) (f : Effect → Bool)
    (hmove : ∀ u w, f (Effect.moveMsg u w) = false)
    (hbot : ∀ gid, f (Effect.scheduleBotMove gid) = false)
    (hterm : ∀ gid mc,
      ([Effect.publishEnded gid mc, Effect.saveGame gid mc,
        Effect.scheduleCleanup gid] : List Effect).countP f = 1)
    (h : s.game.winner = none) :
    (stepSession s r).2.countP f
      = if (stepSession s r).1.game.winner = none then 0 else 1 := by
  rcases stepSession_shape s r with hs | ⟨g', tail, hs, htail⟩
  · rw [hs]
    show (0 : Nat) = if s.game.winner = none then 0 else 1
    rw [if_pos h]
  · rw [hs]
    show (broadcastEffects { s with game := g' } ++ tail).countP f
        = if g'.winner = none then 0 else 1
    rw [List.countP_append,
      broadcastEffects_countP { s with game := g' } f hmove hterm]
    have htail0 : tail.countP f = 0 := by
      rcases htail with ht | ⟨ht, -⟩
      · rw [ht]; rfl
      · rw [ht]
        simp [List.countP_cons, hbot]
    rw [htail0]
    show (if g'.winner = none then 0 else 1) + 0 = _
    omega

theorem runSession_countP (f : Effect → Bool)
    (hmove : ∀ u w, f (Effect.moveMsg u w) = false)
    (hbot : ∀ gid, f (Effect.scheduleBotMove gid) = false)
    (hterm : ∀ gid mc,
      ([Effect.publishEnded gid mc, Effect.saveGame gid mc,
        Effect.scheduleCleanup gid] : List Effect).countP f = 1) :
    ∀ (reqs : List Req) (s : Session), s.game.winner = none →
      (runSession s reqs).2.countP f
        = if (runSession s reqs).1.game.winner = none then 0 else 1 := by
  intro reqs
  induction reqs with
  | nil =>
    intro s h
    show (0 : Nat) = if s.game.winner = none then 0 else 1
    rw [if_pos h]
  | cons r rest ih =>
    intro s h
    show ((stepSession s r).2 ++ (runSession (stepSession s r).1 rest).2).countP f
        = if (runSession (stepSession s r).1 rest).1.game.winner = none
          then 0 else 1
    rw [List.countP_append]
    by_cases hw : (stepSession s r).1.game.winner = none
    · have hp0 : (stepSession s r).2.countP f = 0 := by
        rw [stepSession_countP s r f hmove hbot hterm h, if_pos hw]
      rw [hp0, ih (stepSession s r).1 hw]
      omega
    · have hp1 : (stepSession s r).2.countP f = 1 := by
        rw [stepSession_countP s r f hmove hbot hterm h, if_neg hw]
      rw [runSession_terminal (stepSession s r).1 rest hw]
      show (stepSession s r).2.countP f + ([] : List Effect).countP f
          = if (stepSession s r).1.game.winner = none then 0 else 1
      rw [hp1, if_neg hw]
      rfl

/-- C9: over any event sequence on a session starting in progress, the
database write and the completion publish are each emitted exactly once if
the session reaches a terminal outcome and never otherwise; the forfeiture
path emits neither, only the opponent notification and immediate cleanup. -/
theorem completion_effects_once (s : Session) (reqs : List Req)
    (h : s.game.winner = none) :
    ((runSession s reqs).2.countP Effect.isSave
        = if (runSession s reqs).1.game.winner = none then 0 else 1) ∧
    ((runSession s reqs).2.countP Effect.isPublishEnd
        = if (runSession s reqs).1.game.winner = none then 0 else 1) ∧
    (∀ u, (forfeitEffects s u).countP Effect.isSave = 0 ∧
      (forfeitEffects s u).countP Effect.isPublishEnd = 0 ∧
      Effect.cleanupNow s.id ∈ forfeitEffects s u) := by
  refine ⟨runSession_countP Effect.isSave (by intro u w; rfl)
      (by intro gid; rfl) (by intro gid mc; rfl) reqs s h,
    runSession_countP Effect.isPublishEnd (by intro u w; rfl)
      (by intro gid; rfl) (by intro gid mc; rfl) reqs s h, ?_⟩
  intro u
  unfold forfeitEffects
  split
  · rename_i opp _
    by_cases hb : opp.isBot = true
    · rw [if_pos hb]
      refine ⟨rfl, rfl, ?_⟩
      simp
    · rw [if_neg hb]
      refine ⟨rfl, rfl, ?_⟩
      simp
  · refine ⟨rfl, rfl, ?_⟩
    simp

def demoReqs : List Req :=
  [.human "alice" 0, .human "bob" 0, .human "alice" 1, .human "bob" 1,
   .human "alice" 2, .human "bob" 2, .human "alice" 3]

theorem completion_effects_once_witness :
    sessionHH.game.winner = none ∧
      (runSession sessionHH demoReqs).2.countP Effect.isSave
        = if (runSession sessionHH demoReqs).1.game.winner = none then 0
          else 1 :=
  ⟨by decide, (completion_effects_once sessionHH demoReqs (by decide)).1⟩

end C4
